import Mathlib

/-!
# Verification of the mindmapper map/node persistence service

Shallow embedding of `MapsService`
(`src/teammapper-frontend/src/app/shared/models/cached-map.model.ts`).

The service is a set of asynchronous request handlers over a relational
store with two tables (maps, nodes).  We model the store as an explicit
`DbState` record threaded through every operation; a TypeScript
`Promise.reject(...)` becomes `Except.error`, a resolved promise becomes
`Except.ok`.  Timestamps are epoch milliseconds (`Int`); the SQL
`INTERVAL '1 day' * afterDays` and the JavaScript
`date.setDate(date.getDate() + afterDays)` both become the addition of
`afterDays * dayMs` milliseconds (UTC, no DST — the spec explicitly treats
the calculator as "calendar days, not duration-aware of DST edge cases").
JavaScript string truthiness (`!!x`, where `null`/`undefined`/`""` are
falsy) is modelled on `Option String` by `truthy`.
-/

namespace Mindmapper

/-- Milliseconds in one day. -/
def dayMs : Int := 86400000

/-- JavaScript truthiness of a nullable string: `null`/`undefined`/`""` are
falsy, every other string is truthy. -/
def truthy : Option String → Bool
  | none => false
  | some s => s ≠ ""

/-- Modelled from the spec: the `MmpNode` entity
(`../entities/mmpNode.entity`) is imported by the service but its file is
not part of the reviewed sources.  Fields follow the spec's persisted
shape `Node{id, nodeMapId, nodeParentId?, root, detached, orderNumber,
lastModified, content…}`; the remaining content fields are collapsed into
`content`. -/
structure MmpNode where
  id : String
  nodeMapId : String
  nodeParentId : Option String
  root : Bool
  detached : Bool
  orderNumber : Int
  lastModified : Int
  content : String
  deriving Repr, DecidableEq

/-- Modelled from the spec: the `MmpMap` entity
(`../entities/mmpMap.entity`) is not part of the reviewed sources.  Fields
follow the spec's persisted shape
`Map{id, lastModified, data, deleteAfterDays, deletedAt, options}`; the
fields not read by any reviewed operation are collapsed into `data`. -/
structure MmpMap where
  id : String
  lastModified : Int
  data : String
  deriving Repr, DecidableEq

/-- One warning emitted by the batch insert via `this.logger.warn`.  The
message interpolates the missing parent id, the node id and the map id, so
we record exactly those three identifiers. -/
structure WarnEntry where
  parentId : Option String
  nodeId : String
  mapId : String
  deriving Repr, DecidableEq

/-- The relational store backing the two repositories, plus the logger's
sink.  `maps` and `nodes` are the two tables in insertion order. -/
structure DbState where
  maps : List MmpMap
  nodes : List MmpNode
  log : List WarnEntry
  deriving Repr, DecidableEq

/-- Error outcomes of a rejected promise: `malformedUUID` is the
`MalformedUUIDError` thrown by `findMap`; `rejected` is a bare
`Promise.reject()`. -/
inductive SvcError where
  | malformedUUID
  | rejected
  deriving Repr, DecidableEq

/-- Hexadecimal digit test for the UUID validator. -/
def isHexDigit (c : Char) : Bool :=
  c.isDigit || ('a' ≤ c && c ≤ 'f') || ('A' ≤ c && c ≤ 'F')

/-- Character-level shape of the canonical 8-4-4-4-12 UUID string: hyphens
at positions 8, 13, 18 and 23, hex digits everywhere else. -/
def uuidCharOk (i : Nat) (c : Char) : Bool :=
  if i = 8 || i = 13 || i = 18 || i = 23 then c = '-' else isHexDigit c

/-- The `validate` function of the third-party `uuid` package, modelled at
format level: a 36-character 8-4-4-4-12 hyphenated hex string. -/
def uuidValidate (s : String) : Bool :=
  let cs := s.toList
  cs.length = 36 && cs.enum.all (fun p => uuidCharOk p.1 p.2)

/-- `findMap(uuid)`: rejects with `MalformedUUIDError` when the string is
not a well-formed UUID — before the repository is consulted — and
otherwise resolves to `findOne({ where: { id: uuid } })`. -/
def findMap (st : DbState) (uuid : String) : Except SvcError (Option MmpMap) :=
  if !uuidValidate uuid then .error .malformedUUID
  else .ok (st.maps.find? (fun m => m.id = uuid))

/-- `existsNode(mapId, parentId)`: returns `false` when either identifier
is falsy, otherwise probes the node table for `(id, nodeMapId)`. -/
def existsNode (st : DbState) (mapId parentId : String) : Bool :=
  if mapId = "" || parentId = "" then false
  else st.nodes.any (fun n => n.id = parentId && n.nodeMapId = mapId)

/-- `validatesNodeParentForNode(mapId, node)`:
`node.root || node.detached || (!!node.nodeParentId && existsNode(...))`. -/
def validatesNodeParentForNode (st : DbState) (mapId : String) (node : MmpNode) : Bool :=
  node.root || node.detached ||
    (truthy node.nodeParentId && existsNode st mapId (node.nodeParentId.getD ""))

/-- The record persisted by `addNode`:
`nodesRepository.create({ ...node, nodeMapId: mapId })` copies every field
of the submitted node and overrides the owning-map reference. -/
def mkNodeRecord (mapId : String) (node : MmpNode) : MmpNode :=
  { node with nodeMapId := mapId }

/-- `addNode(mapId, node)`: rejects a detached node carrying a (truthy)
parent reference, rejects a falsy `mapId` (the source also guards `!node`,
which cannot arise in the typed model), returns the existing record when
one with the same `(id, nodeMapId)` is already stored, and otherwise saves
the new record.  Rejection happens before any write, so an `error` result
leaves the store untouched. -/
def addNode (st : DbState) (mapId : String) (node : MmpNode) :
    Except SvcError (MmpNode × DbState) :=
  if node.detached && truthy node.nodeParentId then .error .rejected
  else if mapId = "" then .error .rejected
  else
    match st.nodes.find? (fun n => n.id = node.id && n.nodeMapId = mapId) with
    | some existingNode => .ok (existingNode, st)
    | none =>
        let newNode := mkNodeRecord mapId node
        .ok (newNode, { st with nodes := st.nodes ++ [newNode] })

/-- The sequential `reduce` body of `addNodes`: each node is validated
against the store as it stands at that point; accepted nodes go through
`addNode` (whose rejection aborts the whole chain), rejected nodes are
skipped with a warning logged.  The initial guard
`if (!mapId || nodes.length === 0) Promise.reject()` of the source builds
a rejected promise but neither returns nor awaits it, so it has no effect
on control flow and does not appear here. -/
def addNodesGo (st : DbState) (mapId : String) (acc : List MmpNode) :
    List MmpNode → Except SvcError (List MmpNode × DbState)
  | [] => .ok (acc, st)
  | node :: rest =>
      if validatesNodeParentForNode st mapId node then
        match addNode st mapId node with
        | .error e => .error e
        | .ok (r, st') => addNodesGo st' mapId (acc ++ [r]) rest
      else
        addNodesGo { st with log := st.log ++ [⟨node.nodeParentId, node.id, mapId⟩] }
          mapId acc rest

/-- `addNodes(mapId, nodes)`: the reduce over the input sequence starting
from the resolved empty array. -/
def addNodes (st : DbState) (mapId : String) (nodes : List MmpNode) :
    Except SvcError (List MmpNode × DbState) :=
  addNodesGo st mapId [] nodes

/-- Client-submitted node shape.  Modelled from the spec: `IMmpClientNode`
lives in `../types`, outside the reviewed sources; the spec's data model
gives a node an id, an optional parent reference, `root` and `detached`
flags, a display order number, a last-modified timestamp and content. -/
structure IMmpClientNode where
  id : String
  parent : Option String
  root : Bool
  detached : Bool
  orderNumber : Int
  lastModified : Int
  content : String
  deriving Repr, DecidableEq

/-- Client-submitted map shape.  Modelled from the spec: `IMmpClientMap`
lives in `../types`, outside the reviewed sources; it carries the map's
uuid and the submitted node sequence (`data`). -/
structure IMmpClientMap where
  uuid : String
  lastModified : Int
  data : List IMmpClientNode
  deriving Repr, DecidableEq

/-- Modelled from the spec: `mapClientNodeToMmpNode` from
`../utils/clientServerMapping` is not part of the reviewed sources.  The
spec says the service "decomposes [the inbound client map] into node
records"; we model the conversion as field-preserving, tagging the record
with the owning map. -/
def mapClientNodeToMmpNode (cn : IMmpClientNode) (mapId : String) : MmpNode :=
  { id := cn.id
    nodeMapId := mapId
    nodeParentId := cn.parent
    root := cn.root
    detached := cn.detached
    orderNumber := cn.orderNumber
    lastModified := cn.lastModified
    content := cn.content }

/-- `addNodesFromClient(mapId, clientNodes)`: converts each client node and
delegates to the batch insert. -/
def addNodesFromClient (st : DbState) (mapId : String)
    (clientNodes : List IMmpClientNode) : Except SvcError (List MmpNode × DbState) :=
  addNodes st mapId (clientNodes.map (fun x => mapClientNodeToMmpNode x mapId))

/-- Insert a node into a list kept ascending by `orderNumber`. -/
def insertByOrder (n : MmpNode) : List MmpNode → List MmpNode
  | [] => [n]
  | m :: rest =>
      if n.orderNumber ≤ m.orderNumber then n :: m :: rest
      else m :: insertByOrder n rest

/-- Sort a node list ascending by `orderNumber` (the `ORDER BY
mmpNode.orderNumber ASC` of `findNodes`; SQL leaves ties unordered, and
insertion sort is one concrete realisation). -/
def sortByOrder : List MmpNode → List MmpNode
  | [] => []
  | n :: rest => insertByOrder n (sortByOrder rest)

/-- `findNodes(mapId)`: every node owned by the map, ascending by display
order. -/
def findNodes (st : DbState) (mapId : String) : List MmpNode :=
  sortByOrder (st.nodes.filter (fun n => n.nodeMapId = mapId))

/-- `updateMap(clientMap)`: deletes every node owned by the map, re-inserts
the submitted node sequence through the batch insert, then reloads the map
through `findMap`. -/
def updateMap (st : DbState) (clientMap : IMmpClientMap) :
    Except SvcError (Option MmpMap × DbState) :=
  let st1 := { st with nodes := st.nodes.filter (fun n => !(n.nodeMapId = clientMap.uuid)) }
  match addNodesFromClient st1 clientMap.uuid clientMap.data with
  | .error e => .error e
  | .ok (_, st2) =>
      match findMap st2 clientMap.uuid with
      | .error e => .error e
      | .ok m => .ok (m, st2)

/-- A JavaScript `Date`, reduced to its epoch-millisecond value (UTC). -/
structure JsDate where
  time : Int
  deriving Repr, DecidableEq

/-- `date.getTime()`. -/
def JsDate.getTime (d : JsDate) : Int := d.time

/-- `date.setDate(date.getDate() + n)` in UTC: adds `n` whole days. -/
def JsDate.plusDays (d : JsDate) (n : Int) : JsDate :=
  ⟨d.time + n * dayMs⟩

/-- `calculcateDeletedAt(lastModified, afterDays)` (sic): copies the input
date (`new Date(lastModified.getTime())` — the comment in the source says
"dont modify original input") and advances the copy by `afterDays` days. -/
def calculcateDeletedAt (lastModified : JsDate) (afterDays : Int) : JsDate :=
  let copyDate : JsDate := ⟨lastModified.getTime⟩
  copyDate.plusDays afterDays

/-- Largest element of an integer list, `none` when empty: the SQL
aggregate `max(node.lastModified)`, which is `NULL` over zero rows. -/
def listMax : List Int → Option Int
  | [] => none
  | t :: rest =>
      match listMax rest with
      | none => some t
      | some m => some (max t m)

/-- The `lastModified` column of every node owned by the map: the rows the
grouped `max` aggregates range over. -/
def mapNodeTimes (st : DbState) (mapId : String) : List Int :=
  (st.nodes.filter (fun n => n.nodeMapId = mapId)).map (fun n => n.lastModified)

/-- `getDeletedAt(map, afterDays)`: rejects on a missing map, takes the
newest node's `lastModified` (the grouped `max`, `NULL` when the map has
no nodes), falls back to the map's own `lastModified` on `NULL`, and feeds
the result to `calculcateDeletedAt`. -/
def getDeletedAt (st : DbState) (map : Option MmpMap) (afterDays : Int) :
    Except SvcError JsDate :=
  match map with
  | none => .error .rejected
  | some m =>
      let newestNodeLastModified := listMax (mapNodeTimes st m.id)
      let lastModified :=
        match newestNodeLastModified with
        | none => m.lastModified
        | some t => t
      .ok (calculcateDeletedAt ⟨lastModified⟩ afterDays)

/-- Client-facing export shape.  Modelled from the spec: `mapMmpMapToClient`
from `../utils/clientServerMapping` is not part of the reviewed sources;
the spec says the export "assembles a client-facing shape combining map
metadata, nodes, deadline, and configured retention window". -/
structure ClientMapExport where
  map : MmpMap
  nodes : List MmpNode
  deletedAt : JsDate
  deleteAfterDays : Int
  deriving Repr, DecidableEq

/-- `exportMapToClient(uuid)`: resolves the map (propagating the malformed
UUID rejection, rejecting when absent), loads its ordered nodes, computes
the deletion deadline and assembles the client shape.  `days` stands for
the process-wide `configService.deleteAfterDays()`, passed explicitly to
keep the model pure. -/
def exportMapToClient (st : DbState) (uuid : String) (days : Int) :
    Except SvcError ClientMapExport :=
  match findMap st uuid with
  | .error e => .error e
  | .ok none => .error .rejected
  | .ok (some m) =>
      let nodes := findNodes st m.id
      match getDeletedAt st (some m) days with
      | .error e => .error e
      | .ok d => .ok ⟨m, nodes, d, days⟩

/-- The `WHERE` clause of the sweep's selection query for one map row:
the grouped left join exposes `max(node.lastModified)` as
`lastUpdatedAt` (`NULL` when the map has no nodes); a map is selected when
`lastUpdatedAt + afterDays days < today`, or when `lastUpdatedAt IS NULL`
and `map.lastModified + afterDays days < today` (in SQL the first
comparison is `NULL`, hence not satisfied, whenever `lastUpdatedAt` is). -/
def outdatedMap (st : DbState) (today afterDays : Int) (m : MmpMap) : Bool :=
  match listMax (mapNodeTimes st m.id) with
  | some lastUpdatedAt => lastUpdatedAt + afterDays * dayMs < today
  | none => m.lastModified + afterDays * dayMs < today

/-- Reference description of the batch insert, following the spec's words:
the records actually inserted are those of the nodes that pass the tree
validator against the store as it stands when they are processed, each
tagged with the owning map; an accepted record becomes visible to the
validation of the later nodes.  (Defined for comparison with `addNodes`,
which is translated from the source.) -/
def batchAccepted (st : DbState) (mapId : String) : List MmpNode → List MmpNode
  | [] => []
  | n :: rest =>
      if validatesNodeParentForNode st mapId n then
        mkNodeRecord mapId n ::
          batchAccepted { st with nodes := st.nodes ++ [mkNodeRecord mapId n] } mapId rest
      else batchAccepted st mapId rest

/-- Reference description of the warnings of the batch insert: one entry
per skipped node, identifying the missing parent, the node and the map,
in processing order. -/
def batchWarnings (st : DbState) (mapId : String) : List MmpNode → List WarnEntry
  | [] => []
  | n :: rest =>
      if validatesNodeParentForNode st mapId n then
        batchWarnings { st with nodes := st.nodes ++ [mkNodeRecord mapId n] } mapId rest
      else ⟨n.nodeParentId, n.id, mapId⟩ :: batchWarnings st mapId rest

/-- `deleteOutdatedMaps(afterDays = 30)`: collects the ids selected by the
sweep query, bulk-deletes those maps when the id list is non-empty and
returns the number of deleted rows, otherwise returns 0.  `today` stands
for `new Date()`.  Nodes of deleted maps are removed as well — modelled
from the spec's ownership rule ("deleting a Map cascades to its Nodes");
the cascade lives in the entity definitions outside the reviewed
sources. -/
def deleteOutdatedMaps (st : DbState) (today : Int) (afterDays : Int := 30) :
    Int × DbState :=
  let outdatedMapsIdsFlat := (st.maps.filter (outdatedMap st today afterDays)).map (fun m => m.id)
  if outdatedMapsIdsFlat.length > 0 then
    let remaining := st.maps.filter (fun m => !(outdatedMapsIdsFlat.contains m.id))
    ((st.maps.length : Int) - remaining.length,
      { st with
          maps := remaining
          nodes := st.nodes.filter (fun n => !(outdatedMapsIdsFlat.contains n.nodeMapId)) })
  else (0, st)

/-! ## Concrete scenario data

Named inputs used by the concrete conjuncts, counterexamples and
witnesses. -/

/-- The empty store. -/
def emptyDb : DbState := ⟨[], [], []⟩

/-- A root node with id `P` (submitted shape; the stored record gets the
owning map stamped by `addNode`). -/
def rootP : MmpNode := ⟨"P", "", none, true, false, 0, 0, "root"⟩

/-- A child node whose parent reference is `P`. -/
def childP : MmpNode := ⟨"c", "", some "P", false, false, 1, 0, "child"⟩

/-- A detached node that also carries a (truthy) parent reference. -/
def detachedPar : MmpNode := ⟨"d", "", some "P", false, true, 2, 0, "detached"⟩

/-- A fixed "now" for the sweep scenario. -/
def today0 : Int := 1000 * dayMs

/-- Sweep scenario: map `M1` has a node last modified 31 days ago, map
`M2` has a node last modified 29 days ago, map `M3` has no nodes and its
own `lastModified` is 31 days ago. -/
def sweepDb : DbState :=
  ⟨[⟨"M1", 0, ""⟩, ⟨"M2", 0, ""⟩, ⟨"M3", today0 - 31 * dayMs, ""⟩],
   [⟨"a", "M1", none, true, false, 0, today0 - 31 * dayMs, ""⟩,
    ⟨"b", "M2", none, true, false, 0, today0 - 29 * dayMs, ""⟩],
   []⟩

/-- A well-formed UUID used by the concrete update/export scenarios. -/
def uuidM : String := "123e4567-e89b-12d3-a456-426614174000"

/-- The map reloaded by the concrete `updateMap` scenario. -/
def mapM : MmpMap := ⟨uuidM, 0, ""⟩

/-- Stored node `A` of the `updateMap` scenario. -/
def nodeA : MmpNode := ⟨"A", uuidM, none, true, false, 0, 0, "A"⟩

/-- Stored node `B` of the `updateMap` scenario. -/
def nodeB : MmpNode := ⟨"B", uuidM, some "A", false, false, 1, 0, "B"⟩

/-- Client node `C` submitted by the `updateMap` scenario. -/
def clientC : IMmpClientNode := ⟨"C", none, true, false, 0, 5, "C"⟩

/-- Store of the `updateMap` scenario: map `M` with nodes `[A, B]`. -/
def updateDb : DbState := ⟨[mapM], [nodeA, nodeB], []⟩

/-- Client submission replacing the nodes of map `M` with `[C]`. -/
def clientMapC : IMmpClientMap := ⟨uuidM, 5, [clientC]⟩

/-- A client node that is detached yet carries a parent reference. -/
def clientBad : IMmpClientNode := ⟨"d", some "A", false, true, 0, 0, "bad"⟩

/-- Client submission for map `M` containing the ill-formed detached
node. -/
def clientMapBad : IMmpClientMap := ⟨uuidM, 0, [clientBad]⟩

/-- Store with map `M` and no nodes (export scenario). -/
def exportDb : DbState := ⟨[mapM], [], []⟩

/-! ## Helper lemmas -/

/-- The existence probe reads only the node table. -/
lemma existsNode_nodes_congr (st st' : DbState) (h : st.nodes = st'.nodes)
    (mapId pid : String) : existsNode st mapId pid = existsNode st' mapId pid := by
  unfold existsNode
  rw [h]

/-- The tree validator reads only the node table. -/
lemma validates_nodes_congr (st st' : DbState) (h : st.nodes = st'.nodes)
    (mapId : String) (n : MmpNode) :
    validatesNodeParentForNode st mapId n = validatesNodeParentForNode st' mapId n := by
  unfold validatesNodeParentForNode
  rw [existsNode_nodes_congr st st' h]

/-- The reference insertion list reads only the node table. -/
lemma batchAccepted_nodes_congr (mapId : String) :
    ∀ (L : List MmpNode) (st st' : DbState), st.nodes = st'.nodes →
      batchAccepted st mapId L = batchAccepted st' mapId L
  | [], _, _, _ => rfl
  | n :: rest, st, st', h => by
      unfold batchAccepted
      rw [validates_nodes_congr st st' h mapId n]
      by_cases hv : validatesNodeParentForNode st' mapId n = true
      · rw [if_pos hv, if_pos hv,
          batchAccepted_nodes_congr mapId rest
            { st with nodes := st.nodes ++ [mkNodeRecord mapId n] }
            { st' with nodes := st'.nodes ++ [mkNodeRecord mapId n] } (by simp [h])]
      · rw [if_neg hv, if_neg hv, batchAccepted_nodes_congr mapId rest st st' h]

/-- The reference warning list reads only the node table. -/
lemma batchWarnings_nodes_congr (mapId : String) :
    ∀ (L : List MmpNode) (st st' : DbState), st.nodes = st'.nodes →
      batchWarnings st mapId L = batchWarnings st' mapId L
  | [], _, _, _ => rfl
  | n :: rest, st, st', h => by
      unfold batchWarnings
      rw [validates_nodes_congr st st' h mapId n]
      by_cases hv : validatesNodeParentForNode st' mapId n = true
      · rw [if_pos hv, if_pos hv,
          batchWarnings_nodes_congr mapId rest
            { st with nodes := st.nodes ++ [mkNodeRecord mapId n] }
            { st' with nodes := st'.nodes ++ [mkNodeRecord mapId n] } (by simp [h])]
      · rw [if_neg hv, if_neg hv, batchWarnings_nodes_congr mapId rest st st' h]

/-- `listMax` returns `none` exactly on the empty list. -/
lemma listMax_eq_none_iff : ∀ (l : List Int), listMax l = none ↔ l = []
  | [] => by simp [listMax]
  | t :: rest => by
      unfold listMax
      cases h : listMax rest <;> simp

/-- The value returned by `listMax` is an element of the list. -/
lemma listMax_mem : ∀ (l : List Int) (t : Int), listMax l = some t → t ∈ l
  | [], t => by simp [listMax]
  | x :: rest, t => by
      unfold listMax
      cases h : listMax rest with
      | none => intro ht; simp only [Option.some.injEq] at ht; simp [← ht]
      | some m =>
          intro ht
          simp only [Option.some.injEq] at ht
          rcases max_choice x m with hc | hc
          · have hx : t = x := by rw [← ht, hc]
            simp [hx]
          · have hm : t = m := by rw [← ht, hc]
            exact hm ▸ List.mem_cons_of_mem x (listMax_mem rest m h)

/-- Every element of the list is bounded by the value of `listMax`. -/
lemma listMax_ge : ∀ (l : List Int) (t : Int), listMax l = some t → ∀ x ∈ l, x ≤ t
  | [], t => by simp [listMax]
  | y :: rest, t => by
      unfold listMax
      cases h : listMax rest with
      | none =>
          intro ht x hx
          have : rest = [] := (listMax_eq_none_iff rest).mp h
          subst this
          simp at hx ht
          simp [hx, ht]
      | some m =>
          intro ht x hx
          simp only [Option.some.injEq] at ht
          rcases List.mem_cons.mp hx with rfl | hx'
          · rw [← ht]; exact le_max_left x m
          · calc x ≤ m := listMax_ge rest m h x hx'
              _ ≤ t := by rw [← ht]; exact le_max_right y m

/-- `addNode` on a non-detached-with-parent node, a truthy map id and a
fresh `(id, nodeMapId)` pair: the tagged record is appended. -/
lemma addNode_fresh (st : DbState) (mapId : String) (node : MmpNode)
    (hm : mapId ≠ "")
    (hd : (node.detached && truthy node.nodeParentId) = false)
    (hfresh : ∀ e ∈ st.nodes, ¬(e.id = node.id ∧ e.nodeMapId = mapId)) :
    addNode st mapId node =
      .ok (mkNodeRecord mapId node,
        { st with nodes := st.nodes ++ [mkNodeRecord mapId node] }) := by
  unfold addNode
  have hfind : st.nodes.find? (fun n => n.id = node.id && n.nodeMapId = mapId) = none := by
    rw [List.find?_eq_none]
    intro e he
    simp only [Bool.and_eq_true, decide_eq_true_eq, not_and]
    intro h1 h2
    exact hfresh e he ⟨h1, h2⟩
  simp only [hd, Bool.false_eq_true, if_false, if_neg hm, hfind]

/-- The sequential reduce of the batch insert, related to the reference
lists: under a truthy map id, no detached-with-parent node and fresh
pairwise-distinct ids, no step rejects, the accepted records are appended
to the node table in processing order and one warning per skipped node is
logged. -/
lemma addNodesGo_spec (mapId : String) (hm : mapId ≠ "") :
    ∀ (nodes : List MmpNode) (st : DbState) (acc : List MmpNode),
      (∀ n ∈ nodes, (n.detached && truthy n.nodeParentId) = false) →
      (∀ n ∈ nodes, ∀ e ∈ st.nodes, ¬(e.id = n.id ∧ e.nodeMapId = mapId)) →
      (nodes.map (fun n => n.id)).Nodup →
      addNodesGo st mapId acc nodes =
        .ok (acc ++ batchAccepted st mapId nodes,
          { st with nodes := st.nodes ++ batchAccepted st mapId nodes,
                    log := st.log ++ batchWarnings st mapId nodes })
  | [], st, acc, _, _, _ => by
      simp [addNodesGo, batchAccepted, batchWarnings]
  | node :: rest, st, acc, hd, hfresh, hnodup => by
      have hdn := hd node (List.mem_cons_self _ _)
      have hrest_d : ∀ n ∈ rest, (n.detached && truthy n.nodeParentId) = false :=
        fun n hn => hd n (List.mem_cons_of_mem _ hn)
      have hnodup' : (node.id :: rest.map (fun n => n.id)).Nodup := by simpa using hnodup
      have hrest_nodup : (rest.map (fun n => n.id)).Nodup := (List.nodup_cons.mp hnodup').2
      have hid_ne : ∀ n ∈ rest, n.id ≠ node.id := by
        intro n hn hcon
        exact (List.nodup_cons.mp hnodup').1 (hcon ▸ List.mem_map_of_mem _ hn)
      by_cases hv : validatesNodeParentForNode st mapId node = true
      · have hstep := addNode_fresh st mapId node hm hdn
          (fun e he => hfresh node (List.mem_cons_self _ _) e he)
        have hrest_fresh : ∀ n ∈ rest, ∀ e ∈ st.nodes ++ [mkNodeRecord mapId node],
            ¬(e.id = n.id ∧ e.nodeMapId = mapId) := by
          intro n hn e he
          rcases List.mem_append.mp he with he' | he'
          · exact hfresh n (List.mem_cons_of_mem _ hn) e he'
          · have he2 : e = mkNodeRecord mapId node := by simpa using he'
            subst he2
            intro hcon
            exact hid_ne n hn (by simpa [mkNodeRecord] using hcon.1.symm)
        have hA : batchAccepted st mapId (node :: rest) =
            mkNodeRecord mapId node ::
              batchAccepted { st with nodes := st.nodes ++ [mkNodeRecord mapId node] }
                mapId rest := by
          simp only [batchAccepted]
          rw [if_pos hv]
        have hW : batchWarnings st mapId (node :: rest) =
            batchWarnings { st with nodes := st.nodes ++ [mkNodeRecord mapId node] }
              mapId rest := by
          simp only [batchWarnings]
          rw [if_pos hv]
        simp only [addNodesGo]
        rw [if_pos hv]
        simp only [hstep]
        rw [addNodesGo_spec mapId hm rest
          { st with nodes := st.nodes ++ [mkNodeRecord mapId node] }
          (acc ++ [mkNodeRecord mapId node]) hrest_d hrest_fresh hrest_nodup]
        rw [hA, hW]
        simp
      · have hA : batchAccepted st mapId (node :: rest) = batchAccepted st mapId rest := by
          simp only [batchAccepted]
          rw [if_neg hv]
        have hW : batchWarnings st mapId (node :: rest) =
            ⟨node.nodeParentId, node.id, mapId⟩ :: batchWarnings st mapId rest := by
          simp only [batchWarnings]
          rw [if_neg hv]
        simp only [addNodesGo]
        rw [if_neg hv]
        rw [addNodesGo_spec mapId hm rest
          { st with log := st.log ++ [⟨node.nodeParentId, node.id, mapId⟩] }
          acc hrest_d (fun n hn e he => hfresh n (List.mem_cons_of_mem _ hn) e he)
          hrest_nodup]
        rw [batchAccepted_nodes_congr mapId rest
          { st with log := st.log ++ [⟨node.nodeParentId, node.id, mapId⟩] } st rfl]
        rw [batchWarnings_nodes_congr mapId rest
          { st with log := st.log ++ [⟨node.nodeParentId, node.id, mapId⟩] } st rfl]
        rw [hA, hW]
        simp
/-- Ascending display order, the ordering of `findNodes`. -/
def nodeLE (a b : MmpNode) : Prop := a.orderNumber ≤ b.orderNumber

/-- `insertByOrder` permutes its inputs. -/
lemma insertByOrder_perm (n : MmpNode) :
    ∀ (l : List MmpNode), (insertByOrder n l).Perm (n :: l)
  | [] => List.Perm.refl _
  | m :: rest => by
      unfold insertByOrder
      by_cases h : n.orderNumber ≤ m.orderNumber
      · rw [if_pos h]
      · rw [if_neg h]
        exact ((insertByOrder_perm n rest).cons m).trans (List.Perm.swap n m rest)

/-- `sortByOrder` permutes its input. -/
lemma sortByOrder_perm : ∀ (l : List MmpNode), (sortByOrder l).Perm l
  | [] => List.Perm.refl _
  | n :: rest =>
      (insertByOrder_perm n (sortByOrder rest)).trans ((sortByOrder_perm rest).cons n)

/-- `insertByOrder` preserves ascending display order. -/
lemma insertByOrder_sorted (n : MmpNode) :
    ∀ (l : List MmpNode), l.Pairwise nodeLE → (insertByOrder n l).Pairwise nodeLE
  | [], _ => by simp [insertByOrder]
  | m :: rest, h => by
      unfold insertByOrder
      rcases List.pairwise_cons.mp h with ⟨hm, hrest⟩
      by_cases hle : n.orderNumber ≤ m.orderNumber
      · rw [if_pos hle]
        refine List.pairwise_cons.mpr ⟨?_, h⟩
        intro b hb
        rcases List.mem_cons.mp hb with rfl | hb'
        · exact hle
        · exact le_trans hle (hm b hb')
      · rw [if_neg hle]
        refine List.pairwise_cons.mpr ⟨?_, insertByOrder_sorted n rest hrest⟩
        intro b hb
        rcases List.mem_cons.mp ((insertByOrder_perm n rest).mem_iff.mp hb) with rfl | hb'
        · exact le_of_not_le hle
        · exact hm b hb'

/-- `sortByOrder` sorts ascending by display order. -/
lemma sortByOrder_sorted : ∀ (l : List MmpNode), (sortByOrder l).Pairwise nodeLE
  | [] => List.Pairwise.nil
  | n :: rest => insertByOrder_sorted n (sortByOrder rest) (sortByOrder_sorted rest)

/-- `findNodes` returns exactly the map's nodes (as a permutation of the
table's filter). -/
lemma findNodes_perm (st : DbState) (mapId : String) :
    (findNodes st mapId).Perm (st.nodes.filter (fun n => n.nodeMapId = mapId)) :=
  sortByOrder_perm _

/-- `findNodes` is ascending by display order. -/
lemma findNodes_sorted (st : DbState) (mapId : String) :
    (findNodes st mapId).Pairwise nodeLE :=
  sortByOrder_sorted _

/-- Every record the batch insert produces is tagged with the owning
map. -/
lemma batchAccepted_tagged (mapId : String) :
    ∀ (L : List MmpNode) (st : DbState) (r : MmpNode),
      r ∈ batchAccepted st mapId L → r.nodeMapId = mapId
  | [], _, _ => by simp [batchAccepted]
  | n :: rest, st, r => by
      unfold batchAccepted
      by_cases hv : validatesNodeParentForNode st mapId n = true
      · rw [if_pos hv]
        intro hr
        rcases List.mem_cons.mp hr with rfl | hr'
        · rfl
        · exact batchAccepted_tagged mapId rest _ r hr'
      · rw [if_neg hv]
        exact batchAccepted_tagged mapId rest st r

/-- Under an empty (falsy) map id, a non-root non-detached node never
validates, so the batch skips every node and only logs warnings. -/
lemma addNodesGo_emptyMapId :
    ∀ (nodes : List MmpNode) (st : DbState) (acc : List MmpNode),
      (∀ n ∈ nodes, n.root = false ∧ n.detached = false) →
      addNodesGo st "" acc nodes =
        .ok (acc, { st with log := st.log ++ nodes.map (fun n => ⟨n.nodeParentId, n.id, ""⟩) })
  | [], st, acc, _ => by simp [addNodesGo]
  | node :: rest, st, acc, h => by
      have hn := h node (List.mem_cons_self _ _)
      have hv : validatesNodeParentForNode st "" node = false := by
        unfold validatesNodeParentForNode existsNode
        simp [hn.1, hn.2]
      simp only [addNodesGo]
      rw [if_neg (by simp [hv])]
      rw [addNodesGo_emptyMapId rest _ acc (fun n hn' => h n (List.mem_cons_of_mem _ hn'))]
      simp

/-- With pairwise-distinct map ids, membership of a map's id in the
selected-id list coincides with the selection predicate. -/
lemma contains_filter_map_id (maps : List MmpMap) (p : MmpMap → Bool)
    (hids : (maps.map (fun m => m.id)).Nodup) :
    ∀ m ∈ maps, (((maps.filter p).map (fun m2 => m2.id)).contains m.id) = p m := by
  intro m hm
  by_cases hp : p m = true
  · have : m.id ∈ (maps.filter p).map (fun m2 => m2.id) :=
      List.mem_map_of_mem _ (List.mem_filter.mpr ⟨hm, hp⟩)
    rw [hp]
    exact List.elem_iff.mpr this
  · have hp' : p m = false := Bool.eq_false_iff.mpr hp
    rw [hp']
    rw [Bool.eq_false_iff]
    intro hcon
    rcases List.mem_map.mp (List.elem_iff.mp hcon) with ⟨m2, hm2, hid⟩
    rcases List.mem_filter.mp hm2 with ⟨hm2m, hm2p⟩
    have : m2 = m := List.inj_on_of_nodup_map hids hm2m hm hid
    rw [this] at hm2p
    exact hp hm2p

/-! ## Claim theorems -/

/-- **C4**: the tree validator `validatesNodeParentForNode` returns true
iff the node's root flag is true, or its detached flag is true, or it
carries a non-empty parent reference and a node with that identifier
exists within the same map; and the existence probe `existsNode` returns
false — not an error — when either the map id or the node id is empty,
and otherwise probes the node table for `(id, nodeMapId)`. -/
theorem C4_validator_existsNode (st : DbState) (mapId : String) (node : MmpNode)
    (pid : String) :
    (validatesNodeParentForNode st mapId node = true ↔
      node.root = true ∨ node.detached = true ∨
        ∃ p, node.nodeParentId = some p ∧ p ≠ "" ∧ existsNode st mapId p = true)
    ∧ existsNode st "" pid = false
    ∧ existsNode st mapId "" = false
    ∧ (mapId ≠ "" → pid ≠ "" →
        (existsNode st mapId pid = true ↔
          ∃ n ∈ st.nodes, n.id = pid ∧ n.nodeMapId = mapId)) := by
  refine ⟨?_, ?_, ?_, ?_⟩
  · cases hp : node.nodeParentId with
    | none => simp [validatesNodeParentForNode, truthy, hp]
    | some p =>
        by_cases hpe : p = ""
        · subst hpe
          simp [validatesNodeParentForNode, truthy, hp]
        · simp [validatesNodeParentForNode, truthy, hp, hpe, or_assoc]
  · simp [existsNode]
  · simp [existsNode]
  · intro hm hp
    unfold existsNode
    rw [if_neg (by simp [hm, hp])]
    simp [List.any_eq_true]

/-- Witness for C4 at a concrete store: in `updateDb` (map `M` holding
nodes `A` and `B`), node `A` exists under the map and node `B` — whose
parent reference is `A` — validates. -/
theorem C4_validator_existsNode_witness :
    existsNode updateDb uuidM "A" = true ∧
    validatesNodeParentForNode updateDb uuidM nodeB = true := by
  have h := C4_validator_existsNode updateDb uuidM nodeB "A"
  have hex : existsNode updateDb uuidM "A" = true :=
    (h.2.2.2 (by decide) (by decide)).mpr
      ⟨nodeA, by simp [updateDb], by simp [nodeA], by simp [nodeA, uuidM]⟩
  exact ⟨hex, h.1.mpr (Or.inr (Or.inr ⟨"A", by simp [nodeB], by decide, hex⟩))⟩

/-- **C6**: `calculcateDeletedAt` returns the input timestamp advanced by
exactly `afterDays` calendar days (the whole-day count of the advance is
exactly `afterDays`), and — the embedding being pure, with the source's
copy-before-mutate (`new Date(lastModified.getTime())`) modelled by the
fresh `JsDate` the function builds — the input timestamp value is left
untouched. -/
theorem C6_calculcateDeletedAt (lm : JsDate) (d : Int) (_h : 0 ≤ d) :
    (calculcateDeletedAt lm d).getTime = lm.getTime + d * dayMs
    ∧ ((calculcateDeletedAt lm d).getTime - lm.getTime) / dayMs = d := by
  constructor
  · rfl
  · show (lm.getTime + d * dayMs - lm.getTime) / dayMs = d
    rw [add_sub_cancel_left]
    exact Int.mul_ediv_cancel d (by norm_num [dayMs])

/-- Witness for C6: 30 retention days on timestamp 0. -/
theorem C6_calculcateDeletedAt_witness :
    (calculcateDeletedAt ⟨0⟩ 30).getTime = (0 : Int) + 30 * dayMs
    ∧ ((calculcateDeletedAt ⟨0⟩ 30).getTime - (0 : Int)) / dayMs = 30 :=
  C6_calculcateDeletedAt ⟨0⟩ 30 (by decide)

/-- **C8**: `findMap` fails with the MalformedInput error on any string
that is not a well-formed UUID, independently of the store's contents
(the rejection precedes any storage access); on a well-formed UUID it
returns the stored map with that id, or an empty result when none exists.
`"not-a-uuid"` is such a malformed string. -/
theorem C8_findMap (st st2 : DbState) (u : String) :
    (uuidValidate u = false →
      findMap st u = .error .malformedUUID ∧ findMap st u = findMap st2 u)
    ∧ (uuidValidate u = true →
      findMap st u = .ok (st.maps.find? (fun m => m.id = u))
      ∧ (∀ m, st.maps.find? (fun m2 => m2.id = u) = some m → m ∈ st.maps ∧ m.id = u)
      ∧ ((∀ m ∈ st.maps, m.id ≠ u) → findMap st u = .ok none))
    ∧ uuidValidate "not-a-uuid" = false := by
  refine ⟨?_, ?_, by decide⟩
  · intro hu
    unfold findMap
    rw [hu]
    exact ⟨rfl, rfl⟩
  · intro hu
    unfold findMap
    rw [hu]
    refine ⟨rfl, ?_, ?_⟩
    · intro m hm
      exact ⟨List.mem_of_find?_eq_some hm, by simpa using List.find?_some hm⟩
    · intro hnone
      rw [List.find?_eq_none.mpr (by intro m hm; simpa using hnone m hm)]
      rfl

/-- Witness for C8: on the store `updateDb`, `"not-a-uuid"` is rejected
before storage access (same outcome as on the empty store) and the
well-formed `uuidM` resolves to the stored map. -/
theorem C8_findMap_witness :
    findMap updateDb "not-a-uuid" = .error .malformedUUID
    ∧ findMap updateDb "not-a-uuid" = findMap emptyDb "not-a-uuid"
    ∧ findMap updateDb uuidM = .ok (some mapM) := by
  have h1 := (C8_findMap updateDb emptyDb "not-a-uuid").1 (by decide)
  have h2 := ((C8_findMap updateDb emptyDb uuidM).2.1 (by decide)).1
  exact ⟨h1.1, h1.2, by rw [h2]; rfl⟩

/-- **C9**: `addNode` rejects a node whose detached flag is true and which
also carries a non-empty (truthy) parent reference, and rejects a missing
(falsy) map id; in both rejection cases no record is inserted — the
rejected call yields no successor store at all (the guards precede the
repository access in the source). -/
theorem C9_addNode_rejects (st : DbState) (mapId : String) (node : MmpNode) :
    ((node.detached && truthy node.nodeParentId) = true →
      addNode st mapId node = .error .rejected)
    ∧ (mapId = "" → addNode st mapId node = .error .rejected)
    ∧ (((node.detached && truthy node.nodeParentId) = true ∨ mapId = "") →
      ∀ r st2, addNode st mapId node ≠ .ok (r, st2)) := by
  have hdet : (node.detached && truthy node.nodeParentId) = true →
      addNode st mapId node = .error .rejected := by
    intro h
    unfold addNode
    rw [h]
    rfl
  have hmap : mapId = "" → addNode st mapId node = .error .rejected := by
    intro h
    unfold addNode
    by_cases hdp : (node.detached && truthy node.nodeParentId) = true
    · rw [hdp]; rfl
    · rw [Bool.eq_false_iff.mpr hdp]
      simp [h]
  refine ⟨hdet, hmap, ?_⟩
  rintro (h | h) r st2
  · rw [hdet h]; intro hcon; cases hcon
  · rw [hmap h]; intro hcon; cases hcon

/-- Witness for C9: the detached node `detachedPar` (parent `P`) is
rejected, as is any `addNode` call with the empty map id. -/
theorem C9_addNode_rejects_witness :
    addNode emptyDb "m" detachedPar = .error .rejected
    ∧ addNode emptyDb "" rootP = .error .rejected := by
  exact ⟨(C9_addNode_rejects emptyDb "m" detachedPar).1 (by decide),
    (C9_addNode_rejects emptyDb "" rootP).2.1 rfl⟩

/-- **C10 counterexample**: the claim says a call with an empty map id
"does not reject ... the call resolves normally".  But with the empty map
id and a root node, the guard indeed does not fire, yet `addNode` itself
rejects the falsy map id after the node passes validation, so the call
rejects. -/
theorem C10_counterexample :
    addNodes emptyDb "" [rootP] = .error .rejected := by rfl

/-- **C10 (amended)**: `addNodes` with an empty node list does not reject
— the guard constructs a rejection but does not return it, so the call
resolves to the empty array and inserts nothing, whatever the map id; a
call with an empty map id likewise gets past the guard, and when no
submitted node is root or detached every node fails validation under the
empty map id (the existence probe returns false there), so the call
resolves to the empty array, inserting nothing and logging one warning
per node — but a root or detached node under an empty map id still makes
the call reject inside `addNode`. -/
theorem C10_addNodes_guard (st : DbState) (mapId : String) (nodes : List MmpNode)
    (h : ∀ n ∈ nodes, n.root = false ∧ n.detached = false) :
    addNodes st mapId [] = .ok ([], st)
    ∧ addNodes st "" nodes =
        .ok ([], { st with
          log := st.log ++ nodes.map (fun n => ⟨n.nodeParentId, n.id, ""⟩) }) := by
  constructor
  · rfl
  · exact addNodesGo_emptyMapId nodes st [] h

/-- Witness for C10: the empty list resolves to the empty array on a
non-empty store, and under the empty map id the child node is skipped
with a warning. -/
theorem C10_addNodes_guard_witness :
    addNodes updateDb "m" [] = .ok ([], updateDb)
    ∧ addNodes updateDb "" [childP] =
        .ok ([], { updateDb with log := [⟨some "P", "c", ""⟩] }) := by
  have h := C10_addNodes_guard updateDb "m" [childP] (by decide)
  refine ⟨h.1, ?_⟩
  rw [(C10_addNodes_guard updateDb "irrelevant" [childP] (by decide)).2]
  rfl

/-- `addNode` when a record with the same `(id, nodeMapId)` already
exists: the existing record is returned and the store is unchanged. -/
lemma addNode_existing (st : DbState) (mapId : String) (node : MmpNode) (e : MmpNode)
    (hm : mapId ≠ "")
    (hd : (node.detached && truthy node.nodeParentId) = false)
    (hfind : st.nodes.find? (fun n => n.id = node.id && n.nodeMapId = mapId) = some e) :
    addNode st mapId node = .ok (e, st) := by
  unfold addNode
  simp only [hd, Bool.false_eq_true, if_false, if_neg hm, hfind]

/-- **C5**: `addNode` is idempotent by node identifier — given a truthy
map id and a node that is not detached-with-parent (the source's
rejection guards, established by C9), the call returns some record `r`
and store `st2` such that calling again returns the same `r` and leaves
`st2` unchanged; when a record with the node's id already existed under
the map, `r` is that existing record and the store was never modified;
when none existed, the call appended exactly one record, and the store
holds exactly one record with that `(id, map)` pair. -/
theorem C5_addNode_idempotent (st : DbState) (mapId : String) (node : MmpNode)
    (hm : mapId ≠ "")
    (hd : (node.detached && truthy node.nodeParentId) = false) :
    ∃ r st2,
      addNode st mapId node = .ok (r, st2)
      ∧ addNode st2 mapId node = .ok (r, st2)
      ∧ (∀ e, st.nodes.find? (fun n => n.id = node.id && n.nodeMapId = mapId) = some e →
          r = e ∧ st2 = st)
      ∧ (st.nodes.find? (fun n => n.id = node.id && n.nodeMapId = mapId) = none →
          st2.nodes = st.nodes ++ [mkNodeRecord mapId node]
          ∧ (st2.nodes.filter (fun n => n.id = node.id && n.nodeMapId = mapId)).length
              = 1) := by
  cases hfind : st.nodes.find? (fun n => n.id = node.id && n.nodeMapId = mapId) with
  | some e =>
      refine ⟨e, st, addNode_existing st mapId node e hm hd hfind,
        addNode_existing st mapId node e hm hd hfind, ?_, ?_⟩
      · intro e2 he2
        cases he2
        exact ⟨rfl, rfl⟩
      · intro hnone
        cases hnone
  | none =>
      have hfresh : ∀ x ∈ st.nodes, ¬(x.id = node.id ∧ x.nodeMapId = mapId) := by
        intro x hx hcon
        have hpx := List.find?_eq_none.mp hfind x hx
        simp [hcon.1, hcon.2] at hpx
      have hfind2 : (st.nodes ++ [mkNodeRecord mapId node]).find?
          (fun n => n.id = node.id && n.nodeMapId = mapId)
            = some (mkNodeRecord mapId node) := by
        rw [List.find?_append, hfind]
        simp [mkNodeRecord]
      refine ⟨mkNodeRecord mapId node, _, addNode_fresh st mapId node hm hd hfresh,
        addNode_existing _ mapId node _ hm hd hfind2, ?_, ?_⟩
      · intro e2 he2
        cases he2
      · intro _
        refine ⟨rfl, ?_⟩
        show ((st.nodes ++ [mkNodeRecord mapId node]).filter _).length = 1
        rw [List.filter_append]
        rw [List.filter_eq_nil_iff.mpr (by
          intro x hx
          simp only [Bool.and_eq_true, decide_eq_true_eq, not_and]
          intro h1 h2
          exact hfresh x hx ⟨h1, h2⟩)]
        simp [mkNodeRecord]

/-- Witness for C5: inserting the root node `P` twice into the empty store
under map `m`. -/
theorem C5_addNode_idempotent_witness :
    ∃ r st2,
      addNode emptyDb "m" rootP = .ok (r, st2)
      ∧ addNode st2 "m" rootP = .ok (r, st2)
      ∧ (∀ e, emptyDb.nodes.find? (fun n => n.id = rootP.id && n.nodeMapId = "m") = some e →
          r = e ∧ st2 = emptyDb)
      ∧ (emptyDb.nodes.find? (fun n => n.id = rootP.id && n.nodeMapId = "m") = none →
          st2.nodes = emptyDb.nodes ++ [mkNodeRecord "m" rootP]
          ∧ (st2.nodes.filter (fun n => n.id = rootP.id && n.nodeMapId = "m")).length
              = 1) :=
  C5_addNode_idempotent emptyDb "m" rootP (by decide) (by decide)

/-- **C2 counterexample**: the claim quantifies over every input node
sequence and asserts the batch "skips ... each node that fails validation,
and returns exactly the nodes that were inserted".  A detached node
carrying a parent reference passes the tree validator (detached nodes
validate), is not skipped, and then `addNode` rejects it, aborting the
whole batch: nothing is returned at all. -/
theorem C2_counterexample :
    addNodes emptyDb "m" [detachedPar] = .error .rejected := by rfl

/-- **C2 (amended)**: for a non-empty map id and an input sequence with
pairwise-distinct node ids that are fresh for the map, none of whose
nodes is detached-with-parent (such a node aborts the batch inside
`addNode`, and an already-present id makes the batch return the existing
record rather than an inserted one), `addNodes` processes the nodes
sequentially in input order, validates each against the store at that
point, skips — without inserting — and logs one warning (naming the
missing parent, node and map) for each node failing validation, and
returns exactly the inserted records in processing order, which are
appended to the node table in that order (`batchAccepted` /
`batchWarnings` restate the spec's selection).  Consequently
`[child(parent=P), root(id=P)]` inserts only the root while
`[root(id=P), child(parent=P)]` inserts both. -/
theorem C2_addNodes_batch (st : DbState) (mapId : String) (nodes : List MmpNode)
    (hm : mapId ≠ "")
    (hd : ∀ n ∈ nodes, (n.detached && truthy n.nodeParentId) = false)
    (hfresh : ∀ n ∈ nodes, ∀ e ∈ st.nodes, ¬(e.id = n.id ∧ e.nodeMapId = mapId))
    (hnodup : (nodes.map (fun n => n.id)).Nodup) :
    addNodes st mapId nodes =
      .ok (batchAccepted st mapId nodes,
        { st with nodes := st.nodes ++ batchAccepted st mapId nodes,
                  log := st.log ++ batchWarnings st mapId nodes })
    ∧ addNodes emptyDb "m" [childP, rootP] =
        .ok ([mkNodeRecord "m" rootP],
          ⟨[], [mkNodeRecord "m" rootP], [⟨some "P", "c", "m"⟩]⟩)
    ∧ addNodes emptyDb "m" [rootP, childP] =
        .ok ([mkNodeRecord "m" rootP, mkNodeRecord "m" childP],
          ⟨[], [mkNodeRecord "m" rootP, mkNodeRecord "m" childP], []⟩) := by
  refine ⟨?_, by rfl, by rfl⟩
  have h := addNodesGo_spec mapId hm nodes st [] hd hfresh hnodup
  simpa [addNodes] using h

/-- Witness for C2 at the `[root, child]` scenario on the empty store. -/
theorem C2_addNodes_batch_witness :
    addNodes emptyDb "m" [rootP, childP] =
      .ok (batchAccepted emptyDb "m" [rootP, childP],
        { emptyDb with
            nodes := emptyDb.nodes ++ batchAccepted emptyDb "m" [rootP, childP],
            log := emptyDb.log ++ batchWarnings emptyDb "m" [rootP, childP] })
    ∧ addNodes emptyDb "m" [childP, rootP] =
        .ok ([mkNodeRecord "m" rootP],
          ⟨[], [mkNodeRecord "m" rootP], [⟨some "P", "c", "m"⟩]⟩)
    ∧ addNodes emptyDb "m" [rootP, childP] =
        .ok ([mkNodeRecord "m" rootP, mkNodeRecord "m" childP],
          ⟨[], [mkNodeRecord "m" rootP, mkNodeRecord "m" childP], []⟩) :=
  C2_addNodes_batch emptyDb "m" [rootP, childP] (by decide)
    (by decide) (by simp [emptyDb]) (by decide)

/-- **C3 counterexample**: the claim quantifies over every client map
submission and asserts `updateMap` "reloads and returns the map record".
A submission carrying a detached node with a parent reference makes the
batch insert reject inside `addNode` (after the existing nodes were
already deleted), so `updateMap` rejects and returns no map: on the store
holding map `M` with nodes `[A, B]`, the submission `clientMapBad`
errors. -/
theorem C3_counterexample :
    updateMap updateDb clientMapBad = .error .rejected := by rfl

/-- **C3 (amended)**: for a client map submission whose uuid is a
well-formed UUID naming a stored map, whose node ids are pairwise
distinct, and none of whose nodes is detached-with-parent (such a node
aborts the rebuild with a rejection), `updateMap` deletes every node
owned by the map, re-inserts the submitted sequence via the batch insert
and returns the reloaded map record; afterwards `findNodes` on that map
returns exactly the nodes that survived the batch insert (a permutation
of the batch result), ordered ascending by display-order number.
Concretely, replacing the stored nodes `[A, B]` of map `M` by the
submission `[C]` leaves `findNodes` returning only `[C]`. -/
theorem C3_updateMap_rebuild (st : DbState) (cm : IMmpClientMap) (m : MmpMap)
    (hu : uuidValidate cm.uuid = true)
    (hfindm : st.maps.find? (fun m2 => m2.id = cm.uuid) = some m)
    (hd : ∀ cn ∈ cm.data, (cn.detached && truthy cn.parent) = false)
    (hnodup : (cm.data.map (fun cn => cn.id)).Nodup) :
    (∃ st2 res,
      updateMap st cm = .ok (some m, st2)
      ∧ addNodesFromClient
          { st with nodes := st.nodes.filter (fun n => !(n.nodeMapId = cm.uuid)) }
          cm.uuid cm.data = .ok (res, st2)
      ∧ (findNodes st2 cm.uuid).Perm res
      ∧ (findNodes st2 cm.uuid).Pairwise nodeLE)
    ∧ updateMap updateDb clientMapC =
        .ok (some mapM,
          ⟨[mapM], [mkNodeRecord uuidM (mapClientNodeToMmpNode clientC uuidM)], []⟩)
    ∧ findNodes
        (⟨[mapM], [mkNodeRecord uuidM (mapClientNodeToMmpNode clientC uuidM)], []⟩ : DbState)
        uuidM
        = [mkNodeRecord uuidM (mapClientNodeToMmpNode clientC uuidM)] := by
  refine ⟨?_, by rfl, by rfl⟩
  have hm : cm.uuid ≠ "" := by
    intro hcon
    rw [hcon] at hu
    exact absurd hu (by decide)
  have hd' : ∀ n ∈ cm.data.map (fun x => mapClientNodeToMmpNode x cm.uuid),
      (n.detached && truthy n.nodeParentId) = false := by
    intro n hn
    rcases List.mem_map.mp hn with ⟨cn, hcn, rfl⟩
    simpa [mapClientNodeToMmpNode] using hd cn hcn
  have hfresh : ∀ n ∈ cm.data.map (fun x => mapClientNodeToMmpNode x cm.uuid),
      ∀ e ∈ (st.nodes.filter (fun n2 => !(n2.nodeMapId = cm.uuid))),
        ¬(e.id = n.id ∧ e.nodeMapId = cm.uuid) := by
    intro n _ e he hcon
    have hne := List.of_mem_filter he
    simp only [Bool.not_eq_true', decide_eq_false_iff_not] at hne
    exact hne hcon.2
  have hnodup' : ((cm.data.map (fun x => mapClientNodeToMmpNode x cm.uuid)).map
      (fun n => n.id)).Nodup := by
    rw [List.map_map]
    simpa [Function.comp, mapClientNodeToMmpNode] using hnodup
  set mapped := cm.data.map (fun x => mapClientNodeToMmpNode x cm.uuid) with hmapped
  set st1 := { st with nodes := st.nodes.filter (fun n => !(n.nodeMapId = cm.uuid)) }
    with hst1
  have hbatch := addNodesGo_spec cm.uuid hm mapped st1 [] hd' hfresh hnodup'
  rw [List.nil_append] at hbatch
  set A := batchAccepted st1 cm.uuid mapped with hA
  set W := batchWarnings st1 cm.uuid mapped with hW
  refine ⟨{ st1 with nodes := st1.nodes ++ A, log := st1.log ++ W }, A, ?_, ?_, ?_,
    findNodes_sorted _ cm.uuid⟩
  · show updateMap st cm = _
    unfold updateMap addNodesFromClient addNodes
    rw [← hmapped, ← hst1]
    simp only [hbatch]
    unfold findMap
    rw [hu]
    simp only [Bool.not_true, Bool.false_eq_true, if_false]
    have hmapsfind :
        ({ st1 with nodes := st1.nodes ++ A, log := st1.log ++ W } : DbState).maps.find?
          (fun m2 => m2.id = cm.uuid) = some m := by
      show st1.maps.find? (fun m2 => m2.id = cm.uuid) = some m
      rw [hst1]
      exact hfindm
    rw [hmapsfind]
  · show addNodesFromClient st1 cm.uuid cm.data = _
    unfold addNodesFromClient addNodes
    rw [← hmapped]
    exact hbatch
  · have hfilter :
        ((st1.nodes ++ A).filter (fun n => n.nodeMapId = cm.uuid)) = A := by
      rw [List.filter_append]
      rw [List.filter_eq_nil_iff.mpr (by
        intro x hx
        rw [hst1] at hx
        have hne := List.of_mem_filter hx
        simp only [Bool.not_eq_true', decide_eq_false_iff_not] at hne
        simpa using hne)]
      rw [List.nil_append]
      exact List.filter_eq_self.mpr (by
        intro r hr
        rw [hA] at hr
        simpa using batchAccepted_tagged cm.uuid _ _ r hr)
    have hperm := findNodes_perm
      { st1 with nodes := st1.nodes ++ A, log := st1.log ++ W } cm.uuid
    rw [show ({ st1 with nodes := st1.nodes ++ A, log := st1.log ++ W } : DbState).nodes
        = st1.nodes ++ A from rfl] at hperm
    rw [hfilter] at hperm
    exact hperm

/-- Witness for C3: replacing `[A, B]` by `[C]` on map `M`. -/
theorem C3_updateMap_rebuild_witness :
    updateMap updateDb clientMapC =
      .ok (some mapM,
        ⟨[mapM], [mkNodeRecord uuidM (mapClientNodeToMmpNode clientC uuidM)], []⟩) :=
  (C3_updateMap_rebuild updateDb clientMapC mapM (by decide) (by rfl)
    (by decide) (by decide)).2.1

/-- **C1**: `deleteOutdatedMaps(afterDays)` selects exactly the maps whose
most recent node modification time plus `afterDays` days has elapsed
(is strictly before `today`), or — when the map has no nodes — whose own
`lastModified` plus `afterDays` days has elapsed; it bulk-deletes the
selected maps and returns the number deleted, 0 when none qualifies.
`listMax` of `mapNodeTimes` is genuinely the most recent node
modification time (a member bounding all others, absent exactly when the
map has no nodes).  Concretely, with `afterDays = 30`: map `M1` (newest
node 31 days old) is deleted, `M2` (newest node 29 days old) is kept,
and the empty map `M3` (own `lastModified` 31 days old) is deleted. -/
theorem C1_deleteOutdatedMaps (st : DbState) (today afterDays : Int)
    (hids : (st.maps.map (fun m => m.id)).Nodup) :
    (deleteOutdatedMaps st today afterDays).2.maps
        = st.maps.filter (fun m => !(outdatedMap st today afterDays m))
    ∧ (deleteOutdatedMaps st today afterDays).1
        = ((st.maps.filter (outdatedMap st today afterDays)).length : Int)
    ∧ ((∀ m ∈ st.maps, outdatedMap st today afterDays m = false) →
        (deleteOutdatedMaps st today afterDays).1 = 0)
    ∧ (∀ m, outdatedMap st today afterDays m = true ↔
        ((∃ t, listMax (mapNodeTimes st m.id) = some t ∧ t + afterDays * dayMs < today)
          ∨ (mapNodeTimes st m.id = []
              ∧ m.lastModified + afterDays * dayMs < today)))
    ∧ (∀ mid t, listMax (mapNodeTimes st mid) = some t →
        t ∈ mapNodeTimes st mid ∧ ∀ x ∈ mapNodeTimes st mid, x ≤ t)
    ∧ deleteOutdatedMaps sweepDb today0 30 =
        (2, ⟨[⟨"M2", 0, ""⟩],
          [⟨"b", "M2", none, true, false, 0, today0 - 29 * dayMs, ""⟩], []⟩) := by
  have hiff : ∀ m : MmpMap, outdatedMap st today afterDays m = true ↔
      ((∃ t, listMax (mapNodeTimes st m.id) = some t ∧ t + afterDays * dayMs < today)
        ∨ (mapNodeTimes st m.id = []
            ∧ m.lastModified + afterDays * dayMs < today)) := by
    intro m
    unfold outdatedMap
    cases h : listMax (mapNodeTimes st m.id) with
    | none =>
        have he : mapNodeTimes st m.id = [] := (listMax_eq_none_iff _).mp h
        simp [he, listMax]
    | some t =>
        have hne : mapNodeTimes st m.id ≠ [] := by
          intro hcon
          rw [(listMax_eq_none_iff _).mpr hcon] at h
          cases h
        simp [h, hne]
  have hmax : ∀ (mid : String) (t : Int), listMax (mapNodeTimes st mid) = some t →
      t ∈ mapNodeTimes st mid ∧ ∀ x ∈ mapNodeTimes st mid, x ≤ t :=
    fun _ t h => ⟨listMax_mem _ t h, listMax_ge _ t h⟩
  have hconcrete : deleteOutdatedMaps sweepDb today0 30 =
      (2, ⟨[⟨"M2", 0, ""⟩],
        [⟨"b", "M2", none, true, false, 0, today0 - 29 * dayMs, ""⟩], []⟩) := by decide
  have hkey := contains_filter_map_id st.maps (outdatedMap st today afterDays) hids
  by_cases hf : st.maps.filter (outdatedMap st today afterDays) = []
  · have hall : ∀ m ∈ st.maps, ¬ outdatedMap st today afterDays m = true :=
      List.filter_eq_nil_iff.mp hf
    have hred : deleteOutdatedMaps st today afterDays = (0, st) := by
      unfold deleteOutdatedMaps
      rw [hf]
      rfl
    rw [hred]
    refine ⟨?_, ?_, fun _ => rfl, hiff, hmax, hconcrete⟩
    · exact (List.filter_eq_self.mpr (by
        intro m hm
        simp [hall m hm])).symm
    · rw [hf]
      rfl
  · have hlen : 0 < ((st.maps.filter (outdatedMap st today afterDays)).map
        (fun m => m.id)).length := by
      simpa [List.length_pos] using hf
    have hred : deleteOutdatedMaps st today afterDays =
        ((st.maps.length : Int)
            - (st.maps.filter (fun m =>
                !(((st.maps.filter (outdatedMap st today afterDays)).map
                  (fun m2 => m2.id)).contains m.id))).length,
          { st with
              maps := st.maps.filter (fun m =>
                !(((st.maps.filter (outdatedMap st today afterDays)).map
                  (fun m2 => m2.id)).contains m.id)),
              nodes := st.nodes.filter (fun n =>
                !(((st.maps.filter (outdatedMap st today afterDays)).map
                  (fun m2 => m2.id)).contains n.nodeMapId)) }) := by
      unfold deleteOutdatedMaps
      rw [if_pos hlen]
    have hremain : st.maps.filter (fun m =>
          !(((st.maps.filter (outdatedMap st today afterDays)).map
            (fun m2 => m2.id)).contains m.id))
        = st.maps.filter (fun m => !(outdatedMap st today afterDays m)) :=
      List.filter_congr (by
        intro m hm
        rw [hkey m hm])
    have hcount : (st.maps.filter (outdatedMap st today afterDays)).length
          + (st.maps.filter (fun m => !(outdatedMap st today afterDays m))).length
        = st.maps.length :=
      (List.length_eq_length_filter_add (outdatedMap st today afterDays)).symm
    rw [hred]
    refine ⟨?_, ?_, ?_, hiff, hmax, hconcrete⟩
    · exact hremain
    · show (st.maps.length : Int) - _ = _
      rw [hremain]
      omega
    · intro hnone
      exact absurd (List.filter_eq_nil_iff.mpr (by
        intro m hm
        simp [hnone m hm])) hf

/-- Witness for C1 on the three-map sweep scenario. -/
theorem C1_deleteOutdatedMaps_witness :
    (deleteOutdatedMaps sweepDb today0 30).1
        = ((sweepDb.maps.filter (outdatedMap sweepDb today0 30)).length : Int)
    ∧ deleteOutdatedMaps sweepDb today0 30 =
        (2, ⟨[⟨"M2", 0, ""⟩],
          [⟨"b", "M2", none, true, false, 0, today0 - 29 * dayMs, ""⟩], []⟩) :=
  ⟨(C1_deleteOutdatedMaps sweepDb today0 30 (by decide)).2.1,
    (C1_deleteOutdatedMaps sweepDb today0 30 (by decide)).2.2.2.2.2⟩

/-- **C7**: `getDeletedAt` rejects (NotFound-class bare rejection) when
the map argument is absent; when the map has nodes it feeds their maximum
`lastModified` (a member of the map's node times bounding all others) to
the retention calculator; when the map has no nodes it falls back to the
map's own `lastModified`; and `exportMapToClient` on a map with zero
nodes computes the deletion deadline from the map's own `lastModified`. -/
theorem C7_getDeletedAt (st : DbState) (d : Int) (m : MmpMap) (uuid : String) :
    getDeletedAt st none d = .error .rejected
    ∧ (mapNodeTimes st m.id = [] →
        getDeletedAt st (some m) d = .ok (calculcateDeletedAt ⟨m.lastModified⟩ d))
    ∧ (∀ t, listMax (mapNodeTimes st m.id) = some t →
        getDeletedAt st (some m) d = .ok (calculcateDeletedAt ⟨t⟩ d)
        ∧ t ∈ mapNodeTimes st m.id ∧ ∀ x ∈ mapNodeTimes st m.id, x ≤ t)
    ∧ (findMap st uuid = .ok (some m) →
        st.nodes.filter (fun n => n.nodeMapId = m.id) = [] →
        exportMapToClient st uuid d =
          .ok ⟨m, [], calculcateDeletedAt ⟨m.lastModified⟩ d, d⟩) := by
  have hnone : ∀ m2 : MmpMap, mapNodeTimes st m2.id = [] →
      getDeletedAt st (some m2) d = .ok (calculcateDeletedAt ⟨m2.lastModified⟩ d) := by
    intro m2 he
    have hred : getDeletedAt st (some m2) d =
        .ok (calculcateDeletedAt
          ⟨match listMax (mapNodeTimes st m2.id) with
            | none => m2.lastModified
            | some t => t⟩ d) := rfl
    rw [hred, (listMax_eq_none_iff _).mpr he]
  refine ⟨rfl, hnone m, ?_, ?_⟩
  · intro t ht
    refine ⟨?_, listMax_mem _ t ht, listMax_ge _ t ht⟩
    have hred : getDeletedAt st (some m) d =
        .ok (calculcateDeletedAt
          ⟨match listMax (mapNodeTimes st m.id) with
            | none => m.lastModified
            | some t2 => t2⟩ d) := rfl
    rw [hred, ht]
  · intro hfind hempty
    have hnt : mapNodeTimes st m.id = [] := by
      unfold mapNodeTimes
      rw [hempty]
      rfl
    have hfn : findNodes st m.id = [] := by
      unfold findNodes
      rw [hempty]
      rfl
    unfold exportMapToClient
    simp only [hfind, hfn, hnone m hnt]

/-- Witness for C7: map `M` with zero nodes — both the deadline helper and
the export use the map's own `lastModified`. -/
theorem C7_getDeletedAt_witness :
    getDeletedAt exportDb (some mapM) 30 = .ok (calculcateDeletedAt ⟨mapM.lastModified⟩ 30)
    ∧ exportMapToClient exportDb uuidM 30 =
        .ok ⟨mapM, [], calculcateDeletedAt ⟨mapM.lastModified⟩ 30, 30⟩ := by
  have h := C7_getDeletedAt exportDb 30 mapM uuidM
  exact ⟨h.2.1 (by rfl), h.2.2.2 (by rfl) (by rfl)⟩

end Mindmapper
